import Mathlib

/-
Verification of the item-history / suggestion engine of the Koffan
shopping-list application.

Modelling conventions:
* Go strings are modelled as lists of characters (`Str := List Char`);
  `strings.ToLower` becomes a characterwise `Char.toLower` (ASCII folding,
  which also matches the SQLite `COLLATE NOCASE` ASCII folding used by the
  history table's case-insensitive uniqueness).
* The `item_history` table is modelled as a list of `HistoryRecord`; the SQL
  statements of the source are modelled by their documented semantics
  (`ORDER BY usage_count DESC, last_used_at DESC LIMIT n` becomes sorting by
  the corresponding total preorder followed by `take n`; `DELETE WHERE`
  becomes `filter`; the `ON CONFLICT ... DO UPDATE` upsert becomes an
  insert-or-update on the list).
* I/O failures of the database driver are outside the pure model; the pure
  functions model the behaviour of the Go functions when the store itself
  does not fail.  The `fmt.Errorf("history item not found")` failure of
  `DeleteItemHistory` is modelled by `DbError.notFound`.
-/

set_option maxHeartbeats 1000000

namespace Koffan

/-- Go strings, modelled as lists of characters. -/
abbrev Str := List Char

/-- Model of Go `strings.ToLower`, applied characterwise. -/
def toLowerStr (s : Str) : Str := s.map Char.toLower

/-- Model of Go `strings.HasPrefix s pre`: `pre` is a leading segment of `s`. -/
def startsWith : Str → Str → Bool
  | _, [] => true
  | [], _ :: _ => false
  | c :: s, p :: ps => c == p && startsWith s ps

/-- Model of Go `strings.Contains s pat`: `occursIn pat s` is true when `pat`
occurs contiguously inside `s`. -/
def occursIn (pat : Str) : Str → Bool
  | [] => startsWith [] pat
  | c :: rest => startsWith (c :: rest) pat || occursIn pat rest

/-- Whitespace test used by Go `strings.Fields` (`unicode.IsSpace`). -/
def goIsSpace (c : Char) : Bool :=
  c == ' ' || c == '\t' || c == '\n' || c == '\x0b' || c == '\x0c' ||
    c == '\r' || c == '\u0085' || c == ' '

/-- Helper for `fields`: accumulates the current word (reversed) while
scanning the string. -/
def fieldsAux : Str → Str → List Str
  | [], acc => if acc = [] then [] else [acc.reverse]
  | c :: rest, acc =>
    if goIsSpace c then
      if acc = [] then fieldsAux rest [] else acc.reverse :: fieldsAux rest []
    else fieldsAux rest (c :: acc)

/-- Model of Go `strings.Fields`: splits around runs of whitespace, producing
no empty words. -/
def fields (s : Str) : List Str := fieldsAux s []

/-- Substitution cost used when filling the edit-distance matrix:
`0` for equal characters, `1` otherwise. -/
def chCost (a b : Char) : Nat := if a = b then 0 else 1

/-- Row `i+1` of the edit-distance matrix of the source, given row `i` as
`prev`: entry `0` is initialised to the row index, and entry `j+1` is the
minimum of deletion (`prev (j+1) + 1`), insertion (previous entry of the
same row plus 1) and substitution (`prev j` plus the character cost),
exactly the inner loop of the source. -/
def levMatrixRow (s1 s2 : Str) (i : Nat) (prev : Nat → Nat) : Nat → Nat
  | 0 => i + 1
  | j + 1 =>
    min (prev (j + 1) + 1)
      (min (levMatrixRow s1 s2 i prev j + 1)
        (prev j + chCost (s1.getD i 'a') (s2.getD j 'a')))

/-- The dynamic-programming matrix of `levenshteinDistance` in the source:
`levMatrix s1 s2 i j` is `matrix[i][j]`, the value computed for the length-`i`
leading segment of `s1` against the length-`j` leading segment of `s2`.
Row `0` is initialised to the column index and each later row is filled from
its predecessor; the recurrences `levMatrix_zero`, `levMatrix_succ_zero` and
`levMatrix_succ_succ` below hold definitionally and are exactly the matrix
initialisation and fill of the source. -/
def levMatrix (s1 s2 : Str) : Nat → Nat → Nat
  | 0 => fun j => j
  | i + 1 => levMatrixRow s1 s2 i (levMatrix s1 s2 i)

/-- Model of the source function `levenshteinDistance`: lower-case both
strings, short-circuit when one side is empty, otherwise fill the
dynamic-programming matrix and read its last entry. -/
def levenshteinDistance (s1 s2 : Str) : Nat :=
  let t1 := toLowerStr s1
  let t2 := toLowerStr s2
  if t1.length = 0 then t2.length
  else if t2.length = 0 then t1.length
  else levMatrix t1 t2 t1.length t2.length

/-- Model of the source function `scoreSuggestion`: exact match 1000, then
prefix 500, then substring 200, then (only for queries of length at least 3)
fuzzy whole-name match `100 - d*20`, then fuzzy word match `80 - w*15` for
the first whitespace-delimited word within distance, else 0. -/
def scoreSuggestion (name query : Str) : Int :=
  let nameLower := toLowerStr name
  let queryLower := toLowerStr query
  if nameLower = queryLower then 1000
  else if startsWith nameLower queryLower then 500
  else if occursIn queryLower nameLower then 200
  else if 3 ≤ query.length then
    let distance := levenshteinDistance nameLower queryLower
    let maxDistance := query.length / 2
    if distance ≤ maxDistance then 100 - (distance : Int) * 20
    else
      match (fields nameLower).find?
          (fun w => decide (levenshteinDistance w queryLower ≤ maxDistance)) with
      | some w => 80 - (levenshteinDistance w queryLower : Int) * 15
      | none => 0
  else 0

/-- One row of the `item_history` table. -/
structure HistoryRecord where
  id : Nat
  name : Str
  lastSectionId : Option Int
  usageCount : Nat
  lastUsedAt : Nat
deriving DecidableEq

/-- One row of the `sections` table (only the columns the join needs). -/
structure SectionRec where
  id : Int
  name : Str
deriving DecidableEq

/-- The `ItemSuggestion` JSON projection returned to callers. -/
structure ItemSuggestion where
  name : Str
  lastSectionID : Int
  lastSectionName : Str
  usageCount : Nat
deriving DecidableEq

/-- The LEFT JOIN with `sections` plus the two COALESCEs of the source
queries: resolve the (possibly dangling) section reference, defaulting the
id to `0` and the section name to the empty string. -/
def toSuggestion (sections : List SectionRec) (r : HistoryRecord) : ItemSuggestion :=
  { name := r.name
    lastSectionID := r.lastSectionId.getD 0
    lastSectionName :=
      match r.lastSectionId.bind
          (fun i => sections.find? (fun s => decide (s.id = i))) with
      | some s => s.name
      | none => []
    usageCount := r.usageCount }

/-- The total preorder of `ORDER BY usage_count DESC, last_used_at DESC`:
`recBefore a b` holds when `a` may come no later than `b`. -/
def recBefore (a b : HistoryRecord) : Prop :=
  b.usageCount < a.usageCount ∨
    (a.usageCount = b.usageCount ∧ b.lastUsedAt ≤ a.lastUsedAt)

instance : DecidableRel recBefore := fun a b =>
  decidable_of_iff
    (b.usageCount < a.usageCount ∨
      (a.usageCount = b.usageCount ∧ b.lastUsedAt ≤ a.lastUsedAt))
    Iff.rfl

instance : IsTotal HistoryRecord recBefore :=
  ⟨fun a b => by unfold recBefore; omega⟩

instance : IsTrans HistoryRecord recBefore :=
  ⟨fun a b c hab hbc => by unfold recBefore at hab hbc ⊢; omega⟩

/-- Model of the candidate fetch
`SELECT ... ORDER BY usage_count DESC, last_used_at DESC LIMIT n`:
sort the table by the preorder and keep the first `n` rows. -/
def fetchCandidates (db : List HistoryRecord) (n : Nat) : List HistoryRecord :=
  (List.insertionSort recBefore db).take n

/-- The comparator of the `sort.Slice` call in `GetItemSuggestions`, as a
total preorder on scored suggestions: higher final score first, then higher
usage count. -/
def scoredBefore (a b : ItemSuggestion × Int) : Prop :=
  b.2 < a.2 ∨ (a.2 = b.2 ∧ b.1.usageCount ≤ a.1.usageCount)

instance : DecidableRel scoredBefore := fun a b =>
  decidable_of_iff
    (b.2 < a.2 ∨ (a.2 = b.2 ∧ b.1.usageCount ≤ a.1.usageCount))
    Iff.rfl

instance : IsTotal (ItemSuggestion × Int) scoredBefore :=
  ⟨fun a b => by unfold scoredBefore; omega⟩

instance : IsTrans (ItemSuggestion × Int) scoredBefore :=
  ⟨fun a b c hab hbc => by unfold scoredBefore at hab hbc ⊢; omega⟩

/-- The per-candidate step of the scoring loop in `GetItemSuggestions`:
compute the base score, drop the candidate unless it is strictly positive,
otherwise add the `usageCount / 10` popularity boost. -/
def scoreCandidate (query : Str) (s : ItemSuggestion) : Option (ItemSuggestion × Int) :=
  let score := scoreSuggestion s.name query
  if 0 < score then some (s, score + (s.usageCount / 10 : Nat)) else none

/-- The scored candidate list built by the loop of `GetItemSuggestions`:
the 200-row candidate window, joined with section names, scored and
filtered. -/
def suggestPool (db : List HistoryRecord) (sections : List SectionRec)
    (query : Str) : List (ItemSuggestion × Int) :=
  ((fetchCandidates db 200).map (toSuggestion sections)).filterMap
    (scoreCandidate query)

/-- Model of the source function `GetItemSuggestions`: normalise the limit,
score the candidate window, sort by score then usage count, truncate. -/
def GetItemSuggestions (db : List HistoryRecord) (sections : List SectionRec)
    (query : Str) (limit : Int) : List ItemSuggestion :=
  let lim : Int := if limit ≤ 0 then 10 else limit
  ((List.insertionSort scoredBefore (suggestPool db sections query)).take
    lim.toNat).map Prod.fst

/-- Model of the source function `GetAllItemSuggestions`: normalise the
limit, return the popularity-ordered window with no filtering or scoring. -/
def GetAllItemSuggestions (db : List HistoryRecord) (sections : List SectionRec)
    (limit : Int) : List ItemSuggestion :=
  let lim : Int := if limit ≤ 0 then 100 else limit
  (fetchCandidates db lim.toNat).map (toSuggestion sections)

/-- The case-insensitive key comparison of the history table's
`name COLLATE NOCASE` unique index (ASCII case folding). -/
def sameNameKey (a b : Str) : Bool := decide (toLowerStr a = toLowerStr b)

/-- Model of the source function `SaveItemHistory`, i.e. of
`INSERT ... ON CONFLICT(name COLLATE NOCASE) DO UPDATE`: if a row with the
same case-insensitive name exists it keeps its name and gets
`last_section_id = sectionId`, `usage_count + 1`, `last_used_at = now`;
otherwise a fresh row with usage count 1 is appended.  `newId` stands for
the rowid the store would assign, `now` for `strftime('%s','now')`. -/
def SaveItemHistory (db : List HistoryRecord) (newId : Nat) (name : Str)
    (sectionId : Int) (now : Nat) : List HistoryRecord :=
  if db.any (fun r => sameNameKey r.name name) then
    db.map (fun r =>
      if sameNameKey r.name name then
        { r with lastSectionId := some sectionId,
                 usageCount := r.usageCount + 1,
                 lastUsedAt := now }
      else r)
  else db ++ [⟨newId, name, some sectionId, 1, now⟩]

/-- Failures of the history store visible to callers. -/
inductive DbError
  | notFound
deriving DecidableEq

instance {ε α : Type} [DecidableEq ε] [DecidableEq α] :
    DecidableEq (Except ε α) := fun x y =>
  match x, y with
  | Except.error a, Except.error b =>
    if h : a = b then isTrue (by rw [h])
    else isFalse (fun hc => h (by cases hc; rfl))
  | Except.error _, Except.ok _ => isFalse (fun hc => Except.noConfusion hc)
  | Except.ok _, Except.error _ => isFalse (fun hc => Except.noConfusion hc)
  | Except.ok a, Except.ok b =>
    if h : a = b then isTrue (by rw [h])
    else isFalse (fun hc => h (by cases hc; rfl))

/-- Model of the source function `DeleteItemHistory`:
`DELETE FROM item_history WHERE id = ?`, then a not-found failure when no
row was affected. -/
def DeleteItemHistory (db : List HistoryRecord) (i : Nat) :
    Except DbError (List HistoryRecord) :=
  let affected := (db.filter (fun r => decide (r.id = i))).length
  if affected = 0 then Except.error DbError.notFound
  else Except.ok (db.filter (fun r => decide (r.id ≠ i)))

/-- Model of the source function `DeleteItemHistoryBatch`:
`DELETE FROM item_history WHERE id IN (...)`, returning the number of rows
affected; an empty id list short-circuits to 0 and never touches the
store. -/
def DeleteItemHistoryBatch (db : List HistoryRecord) (ids : List Nat) :
    Except DbError (Nat × List HistoryRecord) :=
  if ids = [] then Except.ok (0, db)
  else
    let remaining := db.filter (fun r => decide (r.id ∉ ids))
    Except.ok (db.length - remaining.length, remaining)

/-- Concrete string: "milk". -/
def milkStr : Str := ['m', 'i', 'l', 'k']

/-- Concrete string: "silk". -/
def silkStr : Str := ['s', 'i', 'l', 'k']

/-- Concrete string: "milkshake". -/
def milkshakeStr : Str := ['m', 'i', 'l', 'k', 's', 'h', 'a', 'k', 'e']

/-- Concrete string: "name". -/
def nameStr : Str := ['n', 'a', 'm', 'e']

/-- Concrete string: "NAME". -/
def nameUpperStr : Str := ['N', 'A', 'M', 'E']

/-- Concrete string: "nAmE". -/
def nameMixedStr : Str := ['n', 'A', 'm', 'E']

/-- Concrete string: "abcde". -/
def chars5 : Str := ['a', 'b', 'c', 'd', 'e']

/-- Concrete string: "abcdef". -/
def chars6 : Str := ['a', 'b', 'c', 'd', 'e', 'f']

/-- Concrete string: "abcdefghij". -/
def chars10 : Str := ['a', 'b', 'c', 'd', 'e', 'f', 'g', 'h', 'i', 'j']

/-- Concrete string: "abcdefghijkl". -/
def chars12 : Str := ['a', 'b', 'c', 'd', 'e', 'f', 'g', 'h', 'i', 'j', 'k', 'l']

/-- The textbook recursive Levenshtein distance, written from the spec's
definition: the minimum number of single-character insertions, deletions and
substitutions (each of cost 1) turning one string into the other. -/
def levSpec : Str → Str → Nat
  | [], ys => ys.length
  | x :: xs, [] => (x :: xs).length
  | x :: xs, y :: ys =>
    min (levSpec xs (y :: ys) + 1)
      (min (levSpec (x :: xs) ys + 1)
        (levSpec xs ys + chCost x y))


theorem levSpec_nil (ys : Str) : levSpec [] ys = ys.length := by
  rw [levSpec]

theorem levSpec_nil2 (xs : Str) : levSpec xs [] = xs.length := by
  cases xs <;> rw [levSpec]

theorem levSpec_cons_cons (x y : Char) (xs ys : Str) :
    levSpec (x :: xs) (y :: ys) =
      min (levSpec xs (y :: ys) + 1)
        (min (levSpec (x :: xs) ys + 1) (levSpec xs ys + chCost x y)) := by
  rw [levSpec]

theorem levMatrix_zero (s1 s2 : Str) (j : Nat) : levMatrix s1 s2 0 j = j := rfl

theorem levMatrix_succ_zero (s1 s2 : Str) (i : Nat) :
    levMatrix s1 s2 (i + 1) 0 = i + 1 := rfl

theorem levMatrix_succ_succ (s1 s2 : Str) (i j : Nat) :
    levMatrix s1 s2 (i + 1) (j + 1) =
      min (levMatrix s1 s2 i (j + 1) + 1)
        (min (levMatrix s1 s2 (i + 1) j + 1)
          (levMatrix s1 s2 i j + chCost (s1.getD i 'a') (s2.getD j 'a'))) := rfl

theorem min9_exchange (A B C D E F G H I k b : Nat) :
    min (min (A+1) (min (B+1) (C+b)) + 1)
      (min (min (D+1) (min (E+1) (F+b)) + 1)
        (min (G+1) (min (H+1) (I+b)) + k)) =
    min (min (A+1) (min (D+1) (G+k)) + 1)
      (min (min (B+1) (min (E+1) (H+k)) + 1)
        (min (C+1) (min (F+1) (I+k)) + b)) := by
  refine le_antisymm ?_ ?_ <;> (simp only [le_min_iff, min_le_iff]; omega)

theorem levSpec_snoc (a b : Char) :
    ∀ xs ys : Str,
      levSpec (xs ++ [a]) (ys ++ [b]) =
        min (levSpec xs (ys ++ [b]) + 1)
          (min (levSpec (xs ++ [a]) ys + 1) (levSpec xs ys + chCost a b)) := by
  intro xs
  induction xs with
  | nil =>
    intro ys
    induction ys with
    | nil =>
      simp only [List.nil_append, levSpec_cons_cons, levSpec_nil, levSpec_nil2]
    | cons y ys ihy =>
      simp only [List.nil_append] at ihy ⊢
      simp only [List.cons_append, levSpec_cons_cons, levSpec_nil,
        List.length_cons, List.length_append, List.length_nil] at ihy ⊢
      omega
  | cons x xs ihx =>
    intro ys
    induction ys with
    | nil =>
      have h1 := ihx []
      simp only [List.nil_append] at h1 ⊢
      simp only [List.cons_append, levSpec_cons_cons, levSpec_nil2,
        List.length_cons, List.length_append, List.length_nil] at h1 ⊢
      omega
    | cons y ys ihy =>
      have h1 := ihx (y :: ys)
      have h3 := ihx ys
      simp only [List.cons_append] at h1 ihy h3 ⊢
      simp only [levSpec_cons_cons]
      rw [h1, ihy, h3]
      exact min9_exchange _ _ _ _ _ _ _ _ _ _ _

theorem levMatrix_eq_levSpec (t1 t2 : Str) :
    ∀ i j, i ≤ t1.length → j ≤ t2.length →
      levMatrix t1 t2 i j = levSpec (t1.take i) (t2.take j) := by
  intro i
  induction i with
  | zero =>
    intro j _ hj
    rw [levMatrix_zero, List.take_zero, levSpec_nil, List.length_take]
    omega
  | succ i ihx =>
    intro j
    induction j with
    | zero =>
      intro hi _
      rw [levMatrix_succ_zero, List.take_zero, levSpec_nil2, List.length_take]
      omega
    | succ j ihy =>
      intro hi hj
      have hi' : i < t1.length := by omega
      have hj' : j < t2.length := by omega
      have e1 : t1.take (i + 1) = t1.take i ++ [t1.getD i 'a'] := by
        rw [List.take_succ, List.getElem?_eq_getElem hi', List.getD_eq_getElem?_getD,
          List.getElem?_eq_getElem hi']
        rfl
      have e2 : t2.take (j + 1) = t2.take j ++ [t2.getD j 'a'] := by
        rw [List.take_succ, List.getElem?_eq_getElem hj', List.getD_eq_getElem?_getD,
          List.getElem?_eq_getElem hj']
        rfl
      rw [levMatrix_succ_succ, e1, e2, levSpec_snoc, ← e1, ← e2,
        ihx (j + 1) (by omega) hj, ihx j (by omega) (by omega), ihy (by omega) (by omega)]

theorem levenshteinDistance_eq_levSpec (s1 s2 : Str) :
    levenshteinDistance s1 s2 = levSpec (toLowerStr s1) (toLowerStr s2) := by
  unfold levenshteinDistance
  by_cases h1 : (toLowerStr s1).length = 0
  · rw [List.length_eq_zero] at h1
    simp [h1, levSpec_nil]
  · by_cases h2 : (toLowerStr s2).length = 0
    · rw [List.length_eq_zero] at h2
      simp [h2, levSpec_nil2, h1]
    · simp only [h1, h2, if_false]
      rw [levMatrix_eq_levSpec _ _ _ _ (Nat.le_refl _) (Nat.le_refl _),
        List.take_length, List.take_length]

theorem levSpec_eq_levenshtein :
    ∀ xs ys : Str, levSpec xs ys = levenshtein Levenshtein.defaultCost xs ys := by
  intro xs
  induction xs with
  | nil =>
    intro ys
    induction ys with
    | nil => rw [levSpec, levenshtein_nil_nil]; rfl
    | cons y ys ihy =>
      rw [levenshtein_nil_cons, ← ihy, levSpec_nil, levSpec_nil, List.length_cons]
      simp [Levenshtein.defaultCost]
      omega
  | cons x xs ihx =>
    intro ys
    induction ys with
    | nil =>
      have h := ihx []
      rw [levSpec_nil2] at h
      rw [levenshtein_cons_nil, levSpec_nil2, ← h, List.length_cons]
      simp [Levenshtein.defaultCost]
      omega
    | cons y ys ihy =>
      rw [levenshtein_cons_cons, levSpec_cons_cons, ← ihx (y :: ys), ← ihy, ← ihx ys]
      simp only [Levenshtein.defaultCost, chCost]
      omega

theorem startsWith_iff : ∀ s p : Str, startsWith s p = true ↔ ∃ t, s = p ++ t := by
  intro s p
  induction p generalizing s with
  | nil =>
    cases s <;> simp [startsWith]
  | cons p ps ih =>
    cases s with
    | nil => simp [startsWith]
    | cons c s' =>
      simp [startsWith, ih, List.cons_append, exists_and_left]

theorem occursIn_iff : ∀ s pat : Str, occursIn pat s = true ↔ ∃ u v, s = u ++ pat ++ v := by
  intro s pat
  induction s with
  | nil =>
    simp only [occursIn, startsWith_iff]
    constructor
    · rintro ⟨t, ht⟩
      exact ⟨[], t, by simpa using ht⟩
    · rintro ⟨u, v, huv⟩
      refine ⟨v, ?_⟩
      cases u with
      | nil => simpa using huv
      | cons u0 u' => simp at huv
  | cons c rest ih =>
    simp only [occursIn, Bool.or_eq_true, startsWith_iff, ih]
    constructor
    · rintro (⟨t, ht⟩ | ⟨u, v, huv⟩)
      · exact ⟨[], t, by simpa using ht⟩
      · exact ⟨c :: u, v, by simp [huv]⟩
    · rintro ⟨u, v, huv⟩
      cases u with
      | nil => exact Or.inl ⟨v, by simpa using huv⟩
      | cons u0 u' =>
        simp only [List.cons_append, List.cons.injEq] at huv
        exact Or.inr ⟨u', v, huv.2⟩

/-- C1: the match score is computed on the lower-cased forms of candidate name
and query and equals 1000 when the name equals the query; else 500 when the
name starts with the query; else 200 when the name contains the query as a
substring; else, only when the query has at least 3 characters, 100 - 20*d
when the Levenshtein distance d of the whole name from the query is at most
len(query)/2, else 80 - 15*w where w is the distance of the first
whitespace-delimited word of the name within that bound (the whole-name check
runs first, the word check only when it fails); and 0 (no match) otherwise.
In particular a query shorter than 3 characters can only match via
exact/prefix/substring. -/
theorem scoreSuggestion_spec (name query : Str) :
    (toLowerStr name = toLowerStr query → scoreSuggestion name query = 1000) ∧
    (toLowerStr name ≠ toLowerStr query →
      (∃ t, toLowerStr name = toLowerStr query ++ t) →
      scoreSuggestion name query = 500) ∧
    (toLowerStr name ≠ toLowerStr query →
      ¬(∃ t, toLowerStr name = toLowerStr query ++ t) →
      (∃ u v, toLowerStr name = u ++ toLowerStr query ++ v) →
      scoreSuggestion name query = 200) ∧
    (toLowerStr name ≠ toLowerStr query →
      ¬(∃ t, toLowerStr name = toLowerStr query ++ t) →
      ¬(∃ u v, toLowerStr name = u ++ toLowerStr query ++ v) →
      query.length < 3 →
      scoreSuggestion name query = 0) ∧
    (toLowerStr name ≠ toLowerStr query →
      ¬(∃ t, toLowerStr name = toLowerStr query ++ t) →
      ¬(∃ u v, toLowerStr name = u ++ toLowerStr query ++ v) →
      3 ≤ query.length →
      levenshteinDistance (toLowerStr name) (toLowerStr query) ≤ query.length / 2 →
      scoreSuggestion name query =
        100 - (levenshteinDistance (toLowerStr name) (toLowerStr query) : Int) * 20) ∧
    (toLowerStr name ≠ toLowerStr query →
      ¬(∃ t, toLowerStr name = toLowerStr query ++ t) →
      ¬(∃ u v, toLowerStr name = u ++ toLowerStr query ++ v) →
      3 ≤ query.length →
      ¬(levenshteinDistance (toLowerStr name) (toLowerStr query) ≤ query.length / 2) →
      ∀ l1 w l2,
        fields (toLowerStr name) = l1 ++ w :: l2 →
        levenshteinDistance w (toLowerStr query) ≤ query.length / 2 →
        (∀ w' ∈ l1, ¬(levenshteinDistance w' (toLowerStr query) ≤ query.length / 2)) →
        scoreSuggestion name query =
          80 - (levenshteinDistance w (toLowerStr query) : Int) * 15) ∧
    (toLowerStr name ≠ toLowerStr query →
      ¬(∃ t, toLowerStr name = toLowerStr query ++ t) →
      ¬(∃ u v, toLowerStr name = u ++ toLowerStr query ++ v) →
      3 ≤ query.length →
      ¬(levenshteinDistance (toLowerStr name) (toLowerStr query) ≤ query.length / 2) →
      (∀ w ∈ fields (toLowerStr name),
        ¬(levenshteinDistance w (toLowerStr query) ≤ query.length / 2)) →
      scoreSuggestion name query = 0) := by
  refine ⟨?_, ?_, ?_, ?_, ?_, ?_, ?_⟩
  · intro h
    simp only [scoreSuggestion, h, if_pos]
  · intro hne hpre
    have hs : startsWith (toLowerStr name) (toLowerStr query) = true :=
      (startsWith_iff _ _).2 hpre
    simp only [scoreSuggestion]
    rw [if_neg hne, if_pos hs]
  · intro hne hpre hsub
    have hs : ¬(startsWith (toLowerStr name) (toLowerStr query) = true) :=
      fun hc => hpre ((startsWith_iff _ _).1 hc)
    have ho : occursIn (toLowerStr query) (toLowerStr name) = true :=
      (occursIn_iff _ _).2 hsub
    simp only [scoreSuggestion]
    rw [if_neg hne, if_neg hs, if_pos ho]
  · intro hne hpre hsub hlen
    have hs : ¬(startsWith (toLowerStr name) (toLowerStr query) = true) :=
      fun hc => hpre ((startsWith_iff _ _).1 hc)
    have ho : ¬(occursIn (toLowerStr query) (toLowerStr name) = true) :=
      fun hc => hsub ((occursIn_iff _ _).1 hc)
    simp only [scoreSuggestion]
    rw [if_neg hne, if_neg hs, if_neg ho, if_neg (by omega)]
  · intro hne hpre hsub hlen hd
    have hs : ¬(startsWith (toLowerStr name) (toLowerStr query) = true) :=
      fun hc => hpre ((startsWith_iff _ _).1 hc)
    have ho : ¬(occursIn (toLowerStr query) (toLowerStr name) = true) :=
      fun hc => hsub ((occursIn_iff _ _).1 hc)
    simp only [scoreSuggestion]
    rw [if_neg hne, if_neg hs, if_neg ho, if_pos hlen, if_pos hd]
  · intro hne hpre hsub hlen hd l1 w l2 hdec hw hl1
    have hs : ¬(startsWith (toLowerStr name) (toLowerStr query) = true) :=
      fun hc => hpre ((startsWith_iff _ _).1 hc)
    have ho : ¬(occursIn (toLowerStr query) (toLowerStr name) = true) :=
      fun hc => hsub ((occursIn_iff _ _).1 hc)
    have hfind : (fields (toLowerStr name)).find?
        (fun w' => decide (levenshteinDistance w' (toLowerStr query) ≤ query.length / 2))
        = some w := by
      rw [List.find?_eq_some]
      refine ⟨by simpa using hw, l1, l2, hdec, ?_⟩
      intro a ha
      simpa using hl1 a ha
    simp only [scoreSuggestion]
    rw [if_neg hne, if_neg hs, if_neg ho, if_pos hlen, if_neg hd, hfind]
  · intro hne hpre hsub hlen hd hwords
    have hs : ¬(startsWith (toLowerStr name) (toLowerStr query) = true) :=
      fun hc => hpre ((startsWith_iff _ _).1 hc)
    have ho : ¬(occursIn (toLowerStr query) (toLowerStr name) = true) :=
      fun hc => hsub ((occursIn_iff _ _).1 hc)
    have hfind : (fields (toLowerStr name)).find?
        (fun w' => decide (levenshteinDistance w' (toLowerStr query) ≤ query.length / 2))
        = none := by
      rw [List.find?_eq_none]
      intro x hx
      simpa using hwords x hx
    simp only [scoreSuggestion]
    rw [if_neg hne, if_neg hs, if_neg ho, if_pos hlen, if_neg hd, hfind]

/-- Witness for C1: the candidate "silk" against the query "milk" falls
through to the whole-name fuzzy branch and scores 100 - 20*1 = 80. -/
theorem scoreSuggestion_spec_witness :
    silkStr.map Char.toLower ≠ milkStr.map Char.toLower ∧
    ¬(∃ t, toLowerStr silkStr = toLowerStr milkStr ++ t) ∧
    ¬(∃ u v, toLowerStr silkStr = u ++ toLowerStr milkStr ++ v) ∧
    3 ≤ milkStr.length ∧
    levenshteinDistance (toLowerStr silkStr) (toLowerStr milkStr) ≤ milkStr.length / 2 ∧
    scoreSuggestion silkStr milkStr = 80 := by
  have hpre : ¬(∃ t, toLowerStr silkStr = toLowerStr milkStr ++ t) := by
    rw [← startsWith_iff]; decide
  have hsub : ¬(∃ u v, toLowerStr silkStr = u ++ toLowerStr milkStr ++ v) := by
    rw [← occursIn_iff]; decide
  refine ⟨by decide, hpre, hsub, by decide, by decide, ?_⟩
  have h := (scoreSuggestion_spec silkStr milkStr).2.2.2.2.1
    (by decide) hpre hsub (by decide) (by decide)
  rw [h]
  decide

theorem scoreCandidate_eq_some {query : Str} {s : ItemSuggestion}
    {p : ItemSuggestion × Int} :
    scoreCandidate query s = some p ↔
      0 < scoreSuggestion s.name query ∧
      p = (s, scoreSuggestion s.name query + (s.usageCount / 10 : Nat)) := by
  simp only [scoreCandidate]
  by_cases h : 0 < scoreSuggestion s.name query
  · rw [if_pos h]
    simp [h, eq_comm]
  · rw [if_neg h]
    simp [h]

theorem scoreCandidate_none {query : Str} {s : ItemSuggestion}
    (h : scoreSuggestion s.name query ≤ 0) : scoreCandidate query s = none := by
  simp only [scoreCandidate]
  rw [if_neg (by omega)]

theorem mem_suggestPool (db : List HistoryRecord) (sections : List SectionRec)
    (query : Str) (p : ItemSuggestion × Int) :
    p ∈ suggestPool db sections query ↔
      ∃ r, r ∈ fetchCandidates db 200 ∧ p.1 = toSuggestion sections r ∧
        0 < scoreSuggestion r.name query ∧
        p.2 = scoreSuggestion r.name query + (r.usageCount / 10 : Nat) := by
  unfold suggestPool
  rw [List.mem_filterMap]
  constructor
  · rintro ⟨s, hs, hsc⟩
    rw [List.mem_map] at hs
    obtain ⟨r, hr, rfl⟩ := hs
    rw [scoreCandidate_eq_some] at hsc
    obtain ⟨hpos, rfl⟩ := hsc
    exact ⟨r, hr, rfl, hpos, rfl⟩
  · rintro ⟨r, hr, h1, hpos, h2⟩
    refine ⟨toSuggestion sections r, List.mem_map.2 ⟨r, hr, rfl⟩, ?_⟩
    rw [scoreCandidate_eq_some]
    exact ⟨hpos, Prod.ext h1 h2⟩

theorem length_filterMap_of_all_some {α β : Type} (f : α → Option β) :
    ∀ l : List α, (∀ x ∈ l, (f x).isSome) → (l.filterMap f).length = l.length := by
  intro l
  induction l with
  | nil => simp
  | cons a l ih =>
    intro h
    rw [List.filterMap_cons]
    obtain ⟨b, hb⟩ := Option.isSome_iff_exists.1 (h a (by simp))
    rw [hb]
    simp only [List.length_cons]
    rw [ih (fun x hx => h x (by simp [hx]))]

/-- C2 (amended): Suggest with limit at most 0 behaves as with limit 10; it
returns the candidates of the fetched window whose base score is strictly
positive (rather than merely nonzero), each carrying the usageCount/10 boost,
sorted by final score descending with usageCount descending as tie-break and
truncated to the first limit entries; an empty candidate set or one with no
positively-scoring candidate yields an empty sequence, not an error. -/
theorem getItemSuggestions_spec (db : List HistoryRecord)
    (sections : List SectionRec) (query : Str) (limit : Int) :
    (limit ≤ 0 →
      GetItemSuggestions db sections query limit =
        GetItemSuggestions db sections query 10) ∧
    (∃ l, l.Perm (suggestPool db sections query) ∧
      List.Sorted scoredBefore l ∧
      GetItemSuggestions db sections query limit =
        (l.take (if limit ≤ 0 then (10 : Int) else limit).toNat).map Prod.fst) ∧
    (∀ p, p ∈ suggestPool db sections query ↔
      ∃ r, r ∈ fetchCandidates db 200 ∧ p.1 = toSuggestion sections r ∧
        0 < scoreSuggestion r.name query ∧
        p.2 = scoreSuggestion r.name query + (r.usageCount / 10 : Nat)) ∧
    (suggestPool db sections query = [] →
      GetItemSuggestions db sections query limit = []) ∧
    (db = [] → GetItemSuggestions db sections query limit = []) := by
  refine ⟨?_, ?_, mem_suggestPool db sections query, ?_, ?_⟩
  · intro h
    simp only [GetItemSuggestions]
    rw [if_pos h, if_neg (by norm_num : ¬(10 : Int) ≤ 0)]
  · exact ⟨List.insertionSort scoredBefore (suggestPool db sections query),
      List.perm_insertionSort _ _, List.sorted_insertionSort _ _, rfl⟩
  · intro h
    simp only [GetItemSuggestions]
    rw [h]
    simp [List.insertionSort]
  · intro h
    subst h
    simp only [GetItemSuggestions, suggestPool, fetchCandidates]
    simp [List.insertionSort]

/-- Witness for C2: with limit -1 the Suggest pipeline behaves exactly as
with the default limit 10. -/
theorem getItemSuggestions_spec_witness :
    (-1 : Int) ≤ 0 ∧
    GetItemSuggestions [⟨1, milkStr, none, 3, 5⟩] [] milkStr (-1) =
      GetItemSuggestions [⟨1, milkStr, none, 3, 5⟩] [] milkStr 10 :=
  ⟨by decide,
   (getItemSuggestions_spec [⟨1, milkStr, none, 3, 5⟩] [] milkStr (-1)).1 (by decide)⟩

/-- Counterexample for C2 as stated: against the query "abcdefghijkl" the
candidate "abcdef" has the nonzero base score -20 (fuzzy whole-name branch,
distance 6), yet Suggest returns the empty sequence instead of returning this
nonzero-scoring candidate: matching is score > 0, not score nonzero. -/
theorem getItemSuggestions_nonzero_cex :
    scoreSuggestion chars6 chars12 = -20 ∧
    scoreSuggestion chars6 chars12 ≠ 0 ∧
    GetItemSuggestions [⟨1, chars6, none, 100, 0⟩] [] chars12 10 = [] :=
  ⟨by decide, by decide, by decide⟩

/-- C3 (amended): a candidate is kept, and receives the usageCount/10
popularity boost, exactly when its arithmetic base score is strictly
positive; a fuzzy-branch base score of 0 or below is discarded just like the
literal 0 of falling through all branches, and every suggestion in Suggest's
output originates from a candidate with strictly positive base score. -/
theorem fuzzyBoost_spec (query : Str) :
    (∀ s : ItemSuggestion, scoreSuggestion s.name query ≤ 0 →
      scoreCandidate query s = none) ∧
    (∀ s : ItemSuggestion, 0 < scoreSuggestion s.name query →
      scoreCandidate query s =
        some (s, scoreSuggestion s.name query + (s.usageCount / 10 : Nat))) ∧
    (∀ db sections limit x, x ∈ GetItemSuggestions db sections query limit →
      ∃ r, r ∈ fetchCandidates db 200 ∧ x = toSuggestion sections r ∧
        0 < scoreSuggestion r.name query) := by
  refine ⟨fun s h => scoreCandidate_none h, ?_, ?_⟩
  · intro s h
    exact scoreCandidate_eq_some.2 ⟨h, rfl⟩
  · intro db sections limit x hx
    simp only [GetItemSuggestions] at hx
    rw [List.mem_map] at hx
    obtain ⟨p, hp, rfl⟩ := hx
    have hp2 : p ∈ List.insertionSort scoredBefore (suggestPool db sections query) :=
      List.take_subset _ _ hp
    have hp3 : p ∈ suggestPool db sections query :=
      (List.perm_insertionSort scoredBefore _).mem_iff.1 hp2
    obtain ⟨r, hr, h1, hpos, _⟩ := (mem_suggestPool db sections query p).1 hp3
    exact ⟨r, hr, h1, hpos⟩

/-- Witness for C3 (amended): the zero-base-score candidate "abcde" against
the query "abcdefghij" is dropped by the scoring step. -/
theorem fuzzyBoost_spec_witness :
    scoreSuggestion chars5 chars10 ≤ 0 ∧
    scoreCandidate chars10 ⟨chars5, 0, [], 50⟩ = none :=
  ⟨by decide, (fuzzyBoost_spec chars10).1 ⟨chars5, 0, [], 50⟩ (by decide)⟩

/-- Counterexample for C3 as stated: the candidate "abcde" matches the query
"abcdefghij" via the fuzzy whole-name branch (distance 5 = len(query)/2,
base score 100 - 5*20 = 0), but despite usageCount 50 it receives no boost
and is excluded from the output: the code keeps only strictly positive base
scores. -/
theorem fuzzyZero_excluded_cex :
    toLowerStr chars5 ≠ toLowerStr chars10 ∧
    startsWith (toLowerStr chars5) (toLowerStr chars10) = false ∧
    occursIn (toLowerStr chars10) (toLowerStr chars5) = false ∧
    levenshteinDistance (toLowerStr chars5) (toLowerStr chars10) = 5 ∧
    chars10.length / 2 = 5 ∧
    scoreSuggestion chars5 chars10 = 0 ∧
    GetItemSuggestions [⟨1, chars5, none, 50, 0⟩] [] chars10 10 = [] :=
  ⟨by decide, by decide, by decide, by decide, by decide, by decide, by decide⟩

theorem startsWith_nil (s : Str) : startsWith s [] = true := by
  cases s <;> rfl

theorem scoreSuggestion_empty_query (name : Str) :
    scoreSuggestion name [] = if name = [] then 1000 else 500 := by
  by_cases h : name = []
  · rw [if_pos h, h]
    decide
  · rw [if_neg h]
    have hne : toLowerStr name ≠ toLowerStr [] := by
      simp only [toLowerStr, List.map_nil]
      simpa [toLowerStr, List.map_eq_nil_iff] using h
    simp only [scoreSuggestion]
    rw [if_neg hne, if_pos (by simpa [toLowerStr] using startsWith_nil (toLowerStr name))]

theorem suggestPool_empty_query (db : List HistoryRecord)
    (sections : List SectionRec) :
    (suggestPool db sections []).length = min 200 db.length := by
  unfold suggestPool
  rw [length_filterMap_of_all_some]
  · rw [List.length_map]
    unfold fetchCandidates
    rw [List.length_take, List.length_insertionSort]
  · intro x hx
    rw [List.mem_map] at hx
    obtain ⟨r, _, rfl⟩ := hx
    have hpos : 0 < scoreSuggestion (toSuggestion sections r).name [] := by
      rw [show (toSuggestion sections r).name = r.name from rfl,
        scoreSuggestion_empty_query]
      by_cases h : r.name = [] <;> simp [h]
    rw [scoreCandidate_eq_some.2 ⟨hpos, rfl⟩]
    rfl

/-- C9: for the empty query every candidate matches: the score is 1000 for
an empty name and 500 otherwise (every string has the empty string as a
prefix), so Suggest with an empty query returns min(limit, window, store
size) suggestions — the most popular candidates — and in particular a
nonempty store yields a nonempty result rather than an empty sequence. -/
theorem emptyQuery_spec (db : List HistoryRecord) (sections : List SectionRec)
    (limit : Int) :
    (∀ name : Str, scoreSuggestion name [] = if name = [] then 1000 else 500) ∧
    (GetItemSuggestions db sections [] limit).length =
      min (if limit ≤ 0 then (10 : Int) else limit).toNat (min 200 db.length) ∧
    (db ≠ [] → GetItemSuggestions db sections [] limit ≠ []) := by
  have hlen : (GetItemSuggestions db sections [] limit).length =
      min (if limit ≤ 0 then (10 : Int) else limit).toNat (min 200 db.length) := by
    simp only [GetItemSuggestions]
    rw [List.length_map, List.length_take, List.length_insertionSort,
      suggestPool_empty_query]
  refine ⟨scoreSuggestion_empty_query, hlen, ?_⟩
  intro hdb hout
  have h0 : (GetItemSuggestions db sections [] limit).length = 0 := by
    rw [hout]; rfl
  rw [hlen] at h0
  have hpos : 0 < db.length := List.length_pos.2 hdb
  by_cases hl : limit ≤ 0
  · rw [if_pos hl] at h0
    omega
  · rw [if_neg hl] at h0
    omega

/-- Witness for C9: a one-record store queried with the empty string yields
a nonempty suggestion list. -/
theorem emptyQuery_spec_witness :
    ([⟨1, milkStr, none, 2, 3⟩] : List HistoryRecord) ≠ [] ∧
    GetItemSuggestions [⟨1, milkStr, none, 2, 3⟩] [] [] 5 ≠ [] :=
  ⟨by decide, (emptyQuery_spec [⟨1, milkStr, none, 2, 3⟩] [] 5).2.2 (by decide)⟩

/-- C10: the usageCount/10 boost is unbounded, so match tiers are not
absolute: whenever a prefix-matching candidate has usage count at least 5010
above that of an exact-matching candidate, its final score 500 + u/10
strictly exceeds the exact match's 1000 + u'/10 and Suggest ranks the prefix
match first. -/
theorem boost_outranks_tier (q nE nP : Str) (sections : List SectionRec)
    (sE sP : Option Int) (uE uP tE tP idE idP : Nat)
    (hE : toLowerStr nE = toLowerStr q)
    (hP : toLowerStr nP ≠ toLowerStr q)
    (hpre : startsWith (toLowerStr nP) (toLowerStr q) = true)
    (hu : uE + 5010 ≤ uP) :
    GetItemSuggestions [⟨idE, nE, sE, uE, tE⟩, ⟨idP, nP, sP, uP, tP⟩] sections q 10 =
      [toSuggestion sections ⟨idP, nP, sP, uP, tP⟩,
       toSuggestion sections ⟨idE, nE, sE, uE, tE⟩] := by
  have hscE : scoreSuggestion nE q = 1000 := by
    simp only [scoreSuggestion]
    rw [if_pos hE]
  have hscP : scoreSuggestion nP q = 500 := by
    simp only [scoreSuggestion]
    rw [if_neg hP, if_pos hpre]
  have hnot : ¬ recBefore ⟨idE, nE, sE, uE, tE⟩ ⟨idP, nP, sP, uP, tP⟩ := by
    unfold recBefore
    simp only [not_or]
    omega
  have hsort1 : List.insertionSort recBefore
      [(⟨idE, nE, sE, uE, tE⟩ : HistoryRecord), ⟨idP, nP, sP, uP, tP⟩] =
      [⟨idP, nP, sP, uP, tP⟩, ⟨idE, nE, sE, uE, tE⟩] := by
    simp only [List.insertionSort, List.orderedInsert]
    rw [if_neg hnot]
  have hfetch : fetchCandidates [⟨idE, nE, sE, uE, tE⟩, ⟨idP, nP, sP, uP, tP⟩] 200 =
      [⟨idP, nP, sP, uP, tP⟩, ⟨idE, nE, sE, uE, tE⟩] := by
    unfold fetchCandidates
    rw [hsort1, List.take_of_length_le (by simp)]
  have hcP : scoreCandidate q (toSuggestion sections ⟨idP, nP, sP, uP, tP⟩) =
      some (toSuggestion sections ⟨idP, nP, sP, uP, tP⟩,
        500 + ((uP / 10 : Nat) : Int)) := by
    simp only [scoreCandidate,
      show (toSuggestion sections ⟨idP, nP, sP, uP, tP⟩).name = nP from rfl,
      show (toSuggestion sections ⟨idP, nP, sP, uP, tP⟩).usageCount = uP from rfl,
      hscP]
    norm_num
  have hcE : scoreCandidate q (toSuggestion sections ⟨idE, nE, sE, uE, tE⟩) =
      some (toSuggestion sections ⟨idE, nE, sE, uE, tE⟩,
        1000 + ((uE / 10 : Nat) : Int)) := by
    simp only [scoreCandidate,
      show (toSuggestion sections ⟨idE, nE, sE, uE, tE⟩).name = nE from rfl,
      show (toSuggestion sections ⟨idE, nE, sE, uE, tE⟩).usageCount = uE from rfl,
      hscE]
    norm_num
  have hpool : suggestPool [⟨idE, nE, sE, uE, tE⟩, ⟨idP, nP, sP, uP, tP⟩] sections q =
      [(toSuggestion sections ⟨idP, nP, sP, uP, tP⟩, 500 + ((uP / 10 : Nat) : Int)),
       (toSuggestion sections ⟨idE, nE, sE, uE, tE⟩, 1000 + ((uE / 10 : Nat) : Int))] := by
    unfold suggestPool
    rw [hfetch]
    simp only [List.map_cons, List.map_nil, List.filterMap_cons, hcP, hcE,
      List.filterMap_nil]
  have hlt : (1000 : Int) + ((uE / 10 : Nat) : Int) < 500 + ((uP / 10 : Nat) : Int) := by
    have h10 : uE / 10 + 501 ≤ uP / 10 := by omega
    omega
  have hord : scoredBefore
      (toSuggestion sections ⟨idP, nP, sP, uP, tP⟩, 500 + ((uP / 10 : Nat) : Int))
      (toSuggestion sections ⟨idE, nE, sE, uE, tE⟩, 1000 + ((uE / 10 : Nat) : Int)) :=
    Or.inl hlt
  have hsort2 : List.insertionSort scoredBefore
      [(toSuggestion sections ⟨idP, nP, sP, uP, tP⟩, 500 + ((uP / 10 : Nat) : Int)),
       (toSuggestion sections ⟨idE, nE, sE, uE, tE⟩, 1000 + ((uE / 10 : Nat) : Int))] =
      [(toSuggestion sections ⟨idP, nP, sP, uP, tP⟩, 500 + ((uP / 10 : Nat) : Int)),
       (toSuggestion sections ⟨idE, nE, sE, uE, tE⟩, 1000 + ((uE / 10 : Nat) : Int))] := by
    simp only [List.insertionSort, List.orderedInsert]
    rw [if_pos hord]
  simp only [GetItemSuggestions]
  rw [hpool, hsort2, if_neg (by norm_num : ¬(10 : Int) ≤ 0)]
  rfl

/-- Witness for C10: "milkshake" with usage count 5019 outranks the exact
match "milk" with usage count 9 on the query "milk". -/
theorem boost_outranks_tier_witness :
    toLowerStr milkStr = toLowerStr milkStr ∧
    toLowerStr milkshakeStr ≠ toLowerStr milkStr ∧
    startsWith (toLowerStr milkshakeStr) (toLowerStr milkStr) = true ∧
    9 + 5010 ≤ 5019 ∧
    GetItemSuggestions [⟨1, milkStr, none, 9, 0⟩, ⟨2, milkshakeStr, none, 5019, 0⟩]
        [] milkStr 10 =
      [toSuggestion [] ⟨2, milkshakeStr, none, 5019, 0⟩,
       toSuggestion [] ⟨1, milkStr, none, 9, 0⟩] :=
  ⟨rfl, by decide, by decide, by decide,
   boost_outranks_tier milkStr milkStr milkshakeStr [] none none 9 5019 0 0 1 2
     rfl (by decide) (by decide) (by decide)⟩

theorem saveItemHistory_insert (db : List HistoryRecord) (newId : Nat)
    (name : Str) (sectionId : Int) (now : Nat)
    (h : ∀ r ∈ db, toLowerStr r.name ≠ toLowerStr name) :
    SaveItemHistory db newId name sectionId now =
      db ++ [⟨newId, name, some sectionId, 1, now⟩] := by
  unfold SaveItemHistory
  have hany : db.any (fun r => sameNameKey r.name name) = false := by
    rw [List.any_eq_false]
    intro r hr
    simp only [sameNameKey, decide_eq_true_eq]
    exact h r hr
  rw [hany]
  simp

theorem saveItemHistory_update_last (db : List HistoryRecord) (r : HistoryRecord)
    (newId : Nat) (name : Str) (sectionId : Int) (now : Nat)
    (hdb : ∀ x ∈ db, toLowerStr x.name ≠ toLowerStr name)
    (hr : toLowerStr r.name = toLowerStr name) :
    SaveItemHistory (db ++ [r]) newId name sectionId now =
      db ++ [{ r with lastSectionId := some sectionId,
                      usageCount := r.usageCount + 1,
                      lastUsedAt := now }] := by
  unfold SaveItemHistory
  have hkey : sameNameKey r.name name = true := by
    simp [sameNameKey, hr]
  have hany : (db ++ [r]).any (fun x => sameNameKey x.name name) = true := by
    simp [List.any_append, hkey]
  rw [if_pos hany, List.map_append]
  congr 1
  · have hid : ∀ x ∈ db,
        (if sameNameKey x.name name then
          { x with lastSectionId := some sectionId,
                   usageCount := x.usageCount + 1,
                   lastUsedAt := now }
         else x) = x := by
      intro x hx
      rw [if_neg]
      simp only [sameNameKey, decide_eq_true_eq]
      exact hdb x hx
    rw [List.map_congr_left hid]
    simp
  · simp [hkey]

/-- C4: RecordUse upserts by case-insensitive name: when no record with the
name exists one is created with usage count 1, the given section id and the
given timestamp; recording a name and then two case variants of it updates
that same record in place, leaving the stored name unchanged and ending with
the last section id, usage count 3 and the last timestamp, so that exactly
one record carries the name key. -/
theorem saveItemHistory_spec (db : List HistoryRecord) (n v1 v2 : Str)
    (s1 s2 s3 : Int) (t1 t2 t3 : Nat) (id1 id2 id3 : Nat)
    (hdb : ∀ r ∈ db, toLowerStr r.name ≠ toLowerStr n)
    (h1 : toLowerStr v1 = toLowerStr n) (h2 : toLowerStr v2 = toLowerStr n) :
    SaveItemHistory db id1 n s1 t1 = db ++ [⟨id1, n, some s1, 1, t1⟩] ∧
    SaveItemHistory (SaveItemHistory (SaveItemHistory db id1 n s1 t1)
        id2 v1 s2 t2) id3 v2 s3 t3 =
      db ++ [⟨id1, n, some s3, 3, t3⟩] ∧
    ((SaveItemHistory (SaveItemHistory (SaveItemHistory db id1 n s1 t1)
        id2 v1 s2 t2) id3 v2 s3 t3).filter
          (fun r => sameNameKey r.name n)).length = 1 := by
  have hdb1 : ∀ r ∈ db, toLowerStr r.name ≠ toLowerStr v1 := by
    intro r hr
    rw [h1]
    exact hdb r hr
  have hdb2 : ∀ r ∈ db, toLowerStr r.name ≠ toLowerStr v2 := by
    intro r hr
    rw [h2]
    exact hdb r hr
  have step1 : SaveItemHistory db id1 n s1 t1 = db ++ [⟨id1, n, some s1, 1, t1⟩] :=
    saveItemHistory_insert db id1 n s1 t1 hdb
  have step2 : SaveItemHistory (SaveItemHistory db id1 n s1 t1) id2 v1 s2 t2 =
      db ++ [⟨id1, n, some s2, 2, t2⟩] := by
    rw [step1]
    exact saveItemHistory_update_last db ⟨id1, n, some s1, 1, t1⟩ id2 v1 s2 t2
      hdb1 h1.symm
  have step3 : SaveItemHistory (SaveItemHistory (SaveItemHistory db id1 n s1 t1)
      id2 v1 s2 t2) id3 v2 s3 t3 = db ++ [⟨id1, n, some s3, 3, t3⟩] := by
    rw [step2]
    exact saveItemHistory_update_last db ⟨id1, n, some s2, 2, t2⟩ id3 v2 s3 t3
      hdb2 h2.symm
  refine ⟨step1, step3, ?_⟩
  rw [step3, List.filter_append]
  have hnil : db.filter (fun r => sameNameKey r.name n) = [] := by
    rw [List.filter_eq_nil_iff]
    intro r hr
    simp only [sameNameKey, decide_eq_true_eq]
    exact hdb r hr
  rw [hnil]
  simp [sameNameKey]

/-- Witness for C4: recording "name", "NAME", "nAmE" in sequence against a
store holding an unrelated record yields exactly one record for the key,
with usage count 3 and the original spelling "name". -/
theorem saveItemHistory_spec_witness :
    (∀ r ∈ ([⟨0, milkStr, none, 4, 9⟩] : List HistoryRecord),
      toLowerStr r.name ≠ toLowerStr nameStr) ∧
    toLowerStr nameUpperStr = toLowerStr nameStr ∧
    toLowerStr nameMixedStr = toLowerStr nameStr ∧
    SaveItemHistory (SaveItemHistory (SaveItemHistory
        [⟨0, milkStr, none, 4, 9⟩] 1 nameStr 7 100) 2 nameUpperStr 8 200)
        3 nameMixedStr 9 300 =
      [⟨0, milkStr, none, 4, 9⟩] ++ [⟨1, nameStr, some 9, 3, 300⟩] ∧
    ((SaveItemHistory (SaveItemHistory (SaveItemHistory
        [⟨0, milkStr, none, 4, 9⟩] 1 nameStr 7 100) 2 nameUpperStr 8 200)
        3 nameMixedStr 9 300).filter
          (fun r => sameNameKey r.name nameStr)).length = 1 :=
  ⟨by decide, by decide, by decide,
   (saveItemHistory_spec [⟨0, milkStr, none, 4, 9⟩] nameStr nameUpperStr
     nameMixedStr 7 8 9 100 200 300 1 2 3 (by decide) (by decide) (by decide)).2.1,
   (saveItemHistory_spec [⟨0, milkStr, none, 4, 9⟩] nameStr nameUpperStr
     nameMixedStr 7 8 9 100 200 300 1 2 3 (by decide) (by decide) (by decide)).2.2⟩

/-- C6: ListAll with limit at most 0 behaves as with limit 100, and returns
at most limit history records, obtained by ordering the whole store by
usageCount descending with lastUsedAt descending as tie-break and taking the
first limit entries, with no query filtering or scoring applied. -/
theorem getAllItemSuggestions_spec (db : List HistoryRecord)
    (sections : List SectionRec) (limit : Int) :
    (limit ≤ 0 →
      GetAllItemSuggestions db sections limit =
        GetAllItemSuggestions db sections 100) ∧
    (GetAllItemSuggestions db sections limit).length ≤
      (if limit ≤ 0 then (100 : Int) else limit).toNat ∧
    ∃ l, l.Perm db ∧ List.Sorted recBefore l ∧
      GetAllItemSuggestions db sections limit =
        (l.take (if limit ≤ 0 then (100 : Int) else limit).toNat).map
          (toSuggestion sections) := by
  refine ⟨?_, ?_, ?_⟩
  · intro h
    simp only [GetAllItemSuggestions]
    rw [if_pos h, if_neg (by norm_num : ¬(100 : Int) ≤ 0)]
  · simp only [GetAllItemSuggestions, fetchCandidates]
    rw [List.length_map, List.length_take]
    exact Nat.min_le_left _ _
  · exact ⟨List.insertionSort recBefore db, List.perm_insertionSort _ _,
      List.sorted_insertionSort _ _, rfl⟩

/-- Witness for C6: with limit -3 ListAll behaves exactly as with the
default limit 100. -/
theorem getAllItemSuggestions_spec_witness :
    (-3 : Int) ≤ 0 ∧
    GetAllItemSuggestions [⟨1, milkStr, none, 1, 5⟩, ⟨2, silkStr, none, 7, 0⟩] [] (-3) =
      GetAllItemSuggestions [⟨1, milkStr, none, 1, 5⟩, ⟨2, silkStr, none, 7, 0⟩] [] 100 :=
  ⟨by decide,
   (getAllItemSuggestions_spec [⟨1, milkStr, none, 1, 5⟩, ⟨2, silkStr, none, 7, 0⟩]
     [] (-3)).1 (by decide)⟩

/-- C7: single-record deletion fails with NotFound exactly when no history
record has the given id; when such a record exists the call succeeds,
returning the store without any record of that id and with every other
record untouched. -/
theorem deleteItemHistory_spec (db : List HistoryRecord) (i : Nat) :
    (DeleteItemHistory db i = Except.error DbError.notFound ↔ ∀ r ∈ db, r.id ≠ i) ∧
    ((∃ r ∈ db, r.id = i) →
      ∃ l, DeleteItemHistory db i = Except.ok l ∧
        (∀ r ∈ l, r.id ≠ i) ∧
        (∀ r ∈ db, r.id ≠ i → r ∈ l) ∧
        (∀ r ∈ l, r ∈ db)) := by
  constructor
  · unfold DeleteItemHistory
    by_cases h : (db.filter (fun r => decide (r.id = i))).length = 0
    · rw [if_pos h]
      rw [List.length_eq_zero, List.filter_eq_nil_iff] at h
      simp only [decide_eq_true_eq] at h
      simpa using h
    · rw [if_neg h]
      rw [List.length_eq_zero, List.filter_eq_nil_iff] at h
      simp only [decide_eq_true_eq] at h
      push_neg at h
      obtain ⟨r, hr, hid⟩ := h
      constructor
      · intro hc
        exact Except.noConfusion hc
      · intro hall
        exact absurd hid (hall r hr)
  · rintro ⟨r, hr, hid⟩
    have hne : (db.filter (fun x => decide (x.id = i))).length ≠ 0 := by
      intro h0
      rw [List.length_eq_zero, List.filter_eq_nil_iff] at h0
      exact h0 r hr (by simp [hid])
    refine ⟨db.filter (fun x => decide (x.id ≠ i)), ?_, ?_, ?_, ?_⟩
    · unfold DeleteItemHistory
      rw [if_neg hne]
    · intro x hx
      simpa using (List.mem_filter.1 hx).2
    · intro x hx hxi
      exact List.mem_filter.2 ⟨hx, by simpa using hxi⟩
    · intro x hx
      exact (List.mem_filter.1 hx).1

/-- Witness for C7: deleting id 5 from a store containing a record with
id 5 succeeds and removes it. -/
theorem deleteItemHistory_spec_witness :
    (∃ r ∈ ([⟨5, milkStr, none, 1, 0⟩] : List HistoryRecord), r.id = 5) ∧
    (∃ l, DeleteItemHistory [⟨5, milkStr, none, 1, 0⟩] 5 = Except.ok l ∧
      (∀ r ∈ l, r.id ≠ 5) ∧
      (∀ r ∈ ([⟨5, milkStr, none, 1, 0⟩] : List HistoryRecord), r.id ≠ 5 → r ∈ l) ∧
      (∀ r ∈ l, r ∈ ([⟨5, milkStr, none, 1, 0⟩] : List HistoryRecord))) :=
  ⟨by decide, (deleteItemHistory_spec [⟨5, milkStr, none, 1, 0⟩] 5).2 (by decide)⟩

theorem length_filter_not_compl (p : HistoryRecord → Bool) :
    ∀ db : List HistoryRecord,
      db.length - (db.filter (fun r => !p r)).length = (db.filter p).length := by
  intro db
  induction db with
  | nil => simp
  | cons a l ih =>
    have hle := List.length_filter_le (fun r => !p r) l
    by_cases h : p a <;>
      simp only [List.filter_cons, h, Bool.not_true, Bool.not_false, if_pos, if_neg,
        cond_true, cond_false, List.length_cons] <;>
      simp only [Bool.false_eq_true, if_false, if_true, List.length_cons] <;>
      omega

/-- C8: batch deletion always succeeds (never NotFound): it removes exactly
the records whose ids appear in the given list, returns the count of records
actually removed, leaves every record whose id is not listed in place, and an
empty id list is a no-op returning 0. -/
theorem deleteItemHistoryBatch_spec (db : List HistoryRecord) (ids : List Nat) :
    (∃ cnt l, DeleteItemHistoryBatch db ids = Except.ok (cnt, l) ∧
      (∀ r ∈ l, r ∈ db ∧ r.id ∉ ids) ∧
      (∀ r ∈ db, r.id ∉ ids → r ∈ l) ∧
      cnt = (db.filter (fun r => decide (r.id ∈ ids))).length) ∧
    DeleteItemHistoryBatch db [] = Except.ok (0, db) := by
  constructor
  · by_cases hids : ids = []
    · subst hids
      refine ⟨0, db, ?_, ?_, ?_, ?_⟩
      · unfold DeleteItemHistoryBatch
        rw [if_pos rfl]
      · intro r hr
        exact ⟨hr, by simp⟩
      · intro r hr _
        exact hr
      · simp
    · refine ⟨db.length - (db.filter (fun r => decide (r.id ∉ ids))).length,
        db.filter (fun r => decide (r.id ∉ ids)), ?_, ?_, ?_, ?_⟩
      · unfold DeleteItemHistoryBatch
        rw [if_neg hids]
      · intro r hr
        have h := List.mem_filter.1 hr
        exact ⟨h.1, by simpa using h.2⟩
      · intro r hr hni
        exact List.mem_filter.2 ⟨hr, by simpa using hni⟩
      · have hfun : (fun r : HistoryRecord => decide (r.id ∉ ids)) =
            (fun r : HistoryRecord => !(decide (r.id ∈ ids))) := by
          funext r
          simp
        rw [hfun]
        exact length_filter_not_compl (fun r => decide (r.id ∈ ids)) db
  · unfold DeleteItemHistoryBatch
    rw [if_pos rfl]

/-- Witness for C8: batch-deleting ids 1 and 99 from a two-record store
removes only the record with id 1 and reports a count of 1; the empty id
list is a no-op. -/
theorem deleteItemHistoryBatch_spec_witness :
    (∃ cnt l,
      DeleteItemHistoryBatch [⟨1, milkStr, none, 1, 0⟩, ⟨2, silkStr, none, 2, 0⟩]
          [1, 99] = Except.ok (cnt, l) ∧
      (∀ r ∈ l, r ∈ ([⟨1, milkStr, none, 1, 0⟩, ⟨2, silkStr, none, 2, 0⟩] :
          List HistoryRecord) ∧ r.id ∉ [1, 99]) ∧
      (∀ r ∈ ([⟨1, milkStr, none, 1, 0⟩, ⟨2, silkStr, none, 2, 0⟩] :
          List HistoryRecord), r.id ∉ [1, 99] → r ∈ l) ∧
      cnt = (([⟨1, milkStr, none, 1, 0⟩, ⟨2, silkStr, none, 2, 0⟩] :
          List HistoryRecord).filter (fun r => decide (r.id ∈ [1, 99]))).length) ∧
    DeleteItemHistoryBatch [⟨1, milkStr, none, 1, 0⟩, ⟨2, silkStr, none, 2, 0⟩] [] =
      Except.ok (0, [⟨1, milkStr, none, 1, 0⟩, ⟨2, silkStr, none, 2, 0⟩]) :=
  deleteItemHistoryBatch_spec [⟨1, milkStr, none, 1, 0⟩, ⟨2, silkStr, none, 2, 0⟩]
    [1, 99]

/-- C5: levenshteinDistance computes the Levenshtein edit distance of the
two strings case-insensitively on raw characters: it equals both the
textbook recursive edit distance (levSpec) and the Mathlib formalisation
levenshtein with unit insert/delete/substitute costs, applied to the
lower-cased strings. -/
theorem levenshteinDistance_correct (s1 s2 : Str) :
    levenshteinDistance s1 s2 = levSpec (toLowerStr s1) (toLowerStr s2) ∧
    levenshteinDistance s1 s2 =
      levenshtein Levenshtein.defaultCost (toLowerStr s1) (toLowerStr s2) :=
  ⟨levenshteinDistance_eq_levSpec s1 s2,
   (levenshteinDistance_eq_levSpec s1 s2).trans (levSpec_eq_levenshtein _ _)⟩

end Koffan
